import Mathlib

/-!
# Tabular Data Accessor — verification of the specification

The repository is a notebook whose every operation is a call into a
third-party tabular-data library; the library's implementation is not part
of the repository's sources.  Following the specification's component
design (§3–§7), the accessor is modelled here as a shallow embedding:
floating-point cell payloads are represented exactly as rationals, the
standard deviation is the real square root of the sample variance, and
fallible operations return `Except`.
-/

set_option autoImplicit false

namespace Tab

/-- Modelled from the spec: a cell value of one of the inferred types
(integer, floating-point, text) or the missing-value sentinel.  The
floating-point payload is represented exactly as a rational. -/
inductive Value where
| int (n : Int)
| float (q : ℚ)
| text (s : String)
| missing
deriving DecidableEq, Repr

/-- Modelled from the spec: the tagged variant of inferred column types,
`{Integer, Float, Text}` (§9). -/
inductive Dtype where
| integer
| floating
| text
deriving DecidableEq, Repr

/-- Modelled from the spec: a Column (Series) is a single named, typed
ordered sequence of values (§3). -/
structure Column where
  name : String
  dtype : Dtype
  values : List Value
deriving DecidableEq, Repr

/-- Modelled from the spec: a Table is an ordered sequence of named columns
together with a row-label sequence (the "index", integers) (§3). -/
structure Table where
  index : List Nat
  cols : List Column
deriving DecidableEq, Repr

/-- Modelled from the spec: the error kinds of §7.  `EmptyReduction` is not
an error constructor because the spec reports it as a missing-value
sentinel result, not a raised failure. -/
inductive Err where
| sourceNotFound
| malformedRow (line : Nat)
| unknownColumn (name : String)
| duplicateColumnName
| lengthMismatch
deriving DecidableEq, Repr

instance {ε α : Type} [DecidableEq ε] [DecidableEq α] :
    DecidableEq (Except ε α) := fun x y =>
  match x, y with
  | .ok a, .ok b =>
    if h : a = b then isTrue (h ▸ rfl)
    else isFalse (fun hh => h (Except.ok.inj hh))
  | .error e, .error f =>
    if h : e = f then isTrue (h ▸ rfl)
    else isFalse (fun hh => h (Except.error.inj hh))
  | .ok _, .error _ => isFalse (fun hh => Except.noConfusion hh)
  | .error _, .ok _ => isFalse (fun hh => Except.noConfusion hh)

/-- Row count: the length of the row-label sequence. -/
def len (t : Table) : Nat := t.index.length

/-- Modelled from the spec: `shape(table) -> (row_count, column_count)`. -/
def shape (t : Table) : Nat × Nat := (t.index.length, t.cols.length)

/-- Modelled from the spec: `columns(table)`, the ordered column names. -/
def columns (t : Table) : List String := t.cols.map Column.name

/-- Modelled from the spec: `dtypes(table)`, name-to-inferred-type mapping. -/
def dtypes (t : Table) : List (String × Dtype) :=
  t.cols.map (fun c => (c.name, c.dtype))

/-- The Table invariant of §3: all columns have equal length, this shared
length being the row count (the length of the index). -/
def tableInv (t : Table) : Prop :=
  ∀ c ∈ t.cols, c.values.length = t.index.length

instance (t : Table) : Decidable (tableInv t) :=
  List.decidableBAll _ t.cols

/-- First column stored under a given name, if any. -/
def getCol? (t : Table) (n : String) : Option Column :=
  t.cols.find? (fun c => c.name == n)

/-- Modelled from the spec: `select(table, column_names) -> Table`
(projection; preserves row order and row labels; unknown names are a
contract error). -/
def select (t : Table) (ns : List String) : Except Err Table :=
  match ns.find? (fun n => (getCol? t n).isNone) with
  | some n => .error (.unknownColumn n)
  | none => .ok ⟨t.index, ns.filterMap (getCol? t)⟩

/-- Modelled from the spec: `select_one(table, column_name) -> Column`. -/
def select_one (t : Table) (n : String) : Except Err Column :=
  match getCol? t n with
  | some c => .ok c
  | none => .error (.unknownColumn n)

/-- Modelled from the spec: `head(table, n)`, the first `n` rows by current
row order; if `n` exceeds the row count, all rows are returned. -/
def head (t : Table) (n : Nat) : Table :=
  ⟨t.index.take n, t.cols.map (fun c => ⟨c.name, c.dtype, c.values.take n⟩)⟩

/-- Modelled from the spec: `tail(table, n)`, the last `n` rows by current
row order; if `n` exceeds the row count, all rows are returned. -/
def tail (t : Table) (n : Nat) : Table :=
  ⟨t.index.drop (t.index.length - n),
   t.cols.map (fun c => ⟨c.name, c.dtype, c.values.drop (c.values.length - n)⟩)⟩

/-- Modelled from the spec: `empty_table()`, zero rows, zero columns. -/
def empty_table : Table := ⟨[], []⟩

/-- Numeric view of a cell: integers and floats carry a rational, text and
missing carry none. -/
def Value.toRat? : Value → Option ℚ
| .int n => some (n : ℚ)
| .float q => some q
| .text _ => none
| .missing => none

/-- Whether a value is the missing-value sentinel. -/
def Value.isMissing : Value → Bool
| .missing => true
| _ => false

/-- The non-missing numeric values of a column, in order (missing values
are ignored, per the reduction convention of §4.1/§7). -/
def numericValues (vs : List Value) : List ℚ :=
  vs.filterMap Value.toRat?

/-- Count of non-missing values (the `count` statistic of `describe`). -/
def count (vs : List Value) : Nat := (numericValues vs).length

/-- Modelled from the spec: `mean(column)`, ignoring missing values; a
column with zero non-missing values yields a missing-value result. -/
def mean (vs : List Value) : Option ℚ :=
  let xs := numericValues vs
  if xs.length = 0 then none else some (xs.sum / (xs.length : ℚ))

/-- Modelled from the spec: `min(column)`, ignoring missing values. -/
def min (vs : List Value) : Option ℚ :=
  match numericValues vs with
  | [] => none
  | x :: xs => some (xs.foldl Min.min x)

/-- Modelled from the spec: `max(column)`, ignoring missing values. -/
def max (vs : List Value) : Option ℚ :=
  match numericValues vs with
  | [] => none
  | x :: xs => some (xs.foldl Max.max x)

/-- Sample variance (divisor `n − 1`), undefined when fewer than two
non-missing values are present (§4.1 `describe`). -/
def sampleVar (vs : List Value) : Option ℚ :=
  let xs := numericValues vs
  if xs.length < 2 then none
  else
    let m : ℚ := xs.sum / (xs.length : ℚ)
    some ((xs.map (fun x => (x - m) ^ 2)).sum / ((xs.length - 1 : Nat) : ℚ))

/-- Modelled from the spec: `std(column)`, the sample standard deviation,
the square root of the sample variance; a missing-value result when it is
undefined. -/
noncomputable def std (vs : List Value) : Option ℝ :=
  (sampleVar vs).map (fun q => Real.sqrt (q : ℝ))

/-- Insertion into a sorted list of rationals. -/
def insertSorted (x : ℚ) : List ℚ → List ℚ
| [] => [x]
| y :: ys => if x ≤ y then x :: y :: ys else y :: insertSorted x ys

/-- Insertion sort for rationals (order statistics for percentiles). -/
def sortRat (xs : List ℚ) : List ℚ := xs.foldr insertSorted []

/-- Modelled from the spec: a percentile of the non-missing values, using
linear interpolation between order statistics (§4.1 `describe`). -/
def percentile (p : ℚ) (vs : List Value) : Option ℚ :=
  match sortRat (numericValues vs) with
  | [] => none
  | x :: xs =>
    let s := x :: xs
    let h : ℚ := ((s.length - 1 : Nat) : ℚ) * p
    let i : Nat := h.floor.toNat
    let lo := s.getD i x
    let hi := s.getD (i + 1) lo
    some (lo + (h - (i : ℚ)) * (hi - lo))

/-- The eight `describe` statistics of a column, in order: count, mean,
std, min, 25th, 50th, 75th percentile, max (§4.1). -/
noncomputable def colStats (vs : List Value) : List (Option ℝ) :=
  [some ((count vs : ℚ) : ℝ),
   (mean vs).map (fun q => (q : ℝ)),
   std vs,
   (min vs).map (fun q => (q : ℝ)),
   (percentile (1/4) vs).map (fun q => (q : ℝ)),
   (percentile (1/2) vs).map (fun q => (q : ℝ)),
   (percentile (3/4) vs).map (fun q => (q : ℝ)),
   (max vs).map (fun q => (q : ℝ))]

/-- Whether a dtype is numeric (integer or floating-point). -/
def Dtype.isNumeric : Dtype → Bool
| .text => false
| _ => true

/-- Modelled from the spec: `describe(table, exclude_types)`; for every
column whose inferred type is numeric and not in `exclude_types`, the eight
statistics; non-numeric columns are silently excluded regardless of
`exclude_types` (§4.1). -/
noncomputable def describe (t : Table) (excludeTypes : List Dtype) :
    List (String × List (Option ℝ)) :=
  (t.cols.filter
      (fun c => c.dtype.isNumeric && decide (c.dtype ∉ excludeTypes))).map
    (fun c => (c.name, colStats c.values))

/-- Modelled from the spec: type inference for an in-memory sequence — all
integers give integer typing; a single non-integer numeric literal (or a
missing value) demotes the sequence to floating-point; anything else is
text (§9, and the Series example of the source). -/
def seriesDtype (vs : List Value) : Dtype :=
  if vs.all (fun v => match v with | .int _ => true | _ => false) then
    .integer
  else if vs.all (fun v =>
      match v with
      | .int _ => true
      | .float _ => true
      | .missing => true
      | .text _ => false) then
    .floating
  else .text

/-- Upcast a value into a column dtype: integers stored in a
floating-point column become floats. -/
def upcast (d : Dtype) : Value → Value
| .int n => if d = .floating then .float (n : ℚ) else .int n
| v => v

/-- An in-memory sequence as a homogeneous typed sequence: its values
upcast to the inferred series dtype. -/
def series (vs : List Value) : List Value :=
  vs.map (upcast (seriesDtype vs))

/-- Modelled from the spec: `from_mapping(named_sequences) -> Table`, built
from a mapping of column name to equal-length sequences; mismatched lengths
and duplicate names are contract errors (§4.1, §7). -/
def from_mapping (m : List (String × List Value)) : Except Err Table :=
  if (m.map Prod.fst).Nodup then
    match m with
    | [] => .ok empty_table
    | (_, vs0) :: rest =>
      if rest.all (fun p => p.2.length == vs0.length) then
        .ok ⟨List.range vs0.length,
             m.map (fun p => ⟨p.1, seriesDtype p.2, series p.2⟩)⟩
      else .error .lengthMismatch
  else .error .duplicateColumnName

/-- Digit run to a natural number. -/
def digitsToNat (ds : List Char) : Nat :=
  ds.foldl (fun a c => a * 10 + (c.toNat - 48)) 0

/-- A nonempty run of decimal digits. -/
def isDigits (ds : List Char) : Bool := !ds.isEmpty && ds.all Char.isDigit

/-- Modelled from the spec: whether a cell parses as an integer literal. -/
def parseIntLit (s : String) : Option Int :=
  match s.data with
  | '-' :: ds => if isDigits ds then some (-(digitsToNat ds : Int)) else none
  | ds => if isDigits ds then some ((digitsToNat ds : Int)) else none

/-- An unsigned decimal number: digits, optionally a point and digits. -/
def parseUnsigned (ds : List Char) : Option ℚ :=
  match ds.span (fun c => c != '.') with
  | (ip, []) => if isDigits ip then some ((digitsToNat ip : ℚ)) else none
  | (ip, _ :: fp) =>
    if isDigits ip && isDigits fp then
      some ((digitsToNat ip : ℚ) + (digitsToNat fp : ℚ) / ((10 : ℚ) ^ fp.length))
    else none

/-- Modelled from the spec: whether a cell parses as a decimal number. -/
def parseFloatLit (s : String) : Option ℚ :=
  match s.data with
  | '-' :: ds => (parseUnsigned ds).map Neg.neg
  | ds => parseUnsigned ds

/-- Modelled from the spec: a cell rendered as `NaN` or empty is a
missing-value marker (§4.1, §6). -/
def isMissingCell (s : String) : Bool := s == "" || s == "NaN"

/-- Modelled from the spec: column-type inference over raw cell strings — a
column is integer-typed if every value parses as an integer literal (a
missing cell disqualifies integer typing), floating-point-typed if every
non-missing value parses as a decimal number, otherwise text-typed (§4.1). -/
def inferDtype (cells : List String) : Dtype :=
  if cells.all (fun s => (parseIntLit s).isSome) then .integer
  else if cells.all (fun s => isMissingCell s || (parseFloatLit s).isSome) then
    .floating
  else .text

/-- Conversion of a raw cell string into a typed value. -/
def convertCell (d : Dtype) (s : String) : Value :=
  if isMissingCell s then .missing
  else
    match d with
    | .integer =>
      match parseIntLit s with
      | some n => .int n
      | none => .missing
    | .floating =>
      match parseFloatLit s with
      | some q => .float q
      | none => .missing
    | .text => .text s

/-- A parsed column: its dtype inferred from its raw cells, its values
converted accordingly. -/
def mkParsedColumn (n : String) (cells : List String) : Column :=
  ⟨n, inferDtype cells, cells.map (convertCell (inferDtype cells))⟩

/-- Split a character sequence at every occurrence of the delimiter. -/
def splitChars (delim : Char) : List Char → List (List Char)
| [] => [[]]
| c :: cs =>
  if c = delim then [] :: splitChars delim cs
  else
    match splitChars delim cs with
    | [] => [[c]]
    | g :: gs => (c :: g) :: gs

/-- Modelled from the spec: a line's fields, separated by the configured
delimiter character (§6). -/
def splitCells (delim : Char) (s : String) : List String :=
  (splitChars delim s.data).map (fun cs => ⟨cs⟩)

/-- The table a successful parse yields before column selection: rows
labelled positionally, one parsed column per header name. -/
def parseTable (names : List String) (cellRows : List (List String)) : Table :=
  ⟨List.range cellRows.length,
   names.enum.map
     (fun p => mkParsedColumn p.2 (cellRows.map (fun r => r.getD p.1 "")))⟩

/-- Modelled from the spec: `parse(source, delimiter, skip_leading_rows,
selected_columns?) -> Table` — the source is a sequence of lines;
`skip_leading_rows` leading lines are discarded, the first retained line
supplies the column names, each further retained line is a data row whose
field count must match the header (else `MalformedRow`); duplicate header
names are a contract error; if `selected_columns` is given, only those
columns are retained and unknown names are a contract error (§4.1, §6, §7).
`parseLines` handles the lines remaining after `skip_leading_rows`;
`skipRows` is only used to report line numbers in errors. -/
def parseLines (retained : List String) (delim : Char) (skipRows : Nat)
    (selectedColumns : Option (List String)) : Except Err Table :=
  match retained with
  | [] => .error (.malformedRow skipRows)
  | header :: dataLines =>
    if (splitCells delim header).Nodup then
      match dataLines.findIdx?
          (fun r => (splitCells delim r).length != (splitCells delim header).length) with
      | some i => .error (.malformedRow (skipRows + 1 + i))
      | none =>
        match selectedColumns with
        | none =>
          .ok (parseTable (splitCells delim header)
                (dataLines.map (splitCells delim)))
        | some sel =>
          select (parseTable (splitCells delim header)
                   (dataLines.map (splitCells delim))) sel
    else .error .duplicateColumnName

/-- Modelled from the spec: `parse` discards `skip_leading_rows` leading
lines and parses the rest (§4.1). -/
def parse (lines : List String) (delim : Char) (skipRows : Nat)
    (selectedColumns : Option (List String)) : Except Err Table :=
  parseLines (lines.drop skipRows) delim skipRows selectedColumns

/-! ## Sample tables used to instantiate universally quantified results -/

/-- A small table satisfying the invariant: one integer column and one
floating-point column of length three. -/
def sampleTable : Table :=
  ⟨[0, 1, 2],
   [⟨"a", .integer, [.int 1, .int 2, .int 3]⟩,
    ⟨"b", .floating, [.float 1, .missing, .float 3]⟩]⟩

/-- The projection of `sampleTable` onto its column `b`. -/
def sampleTableB : Table :=
  ⟨[0, 1, 2], [⟨"b", .floating, [.float 1, .missing, .float 3]⟩]⟩

/-! ## General lemmas about the accessor operations -/

theorem Table.ext' : ∀ {t1 t2 : Table},
    t1.index = t2.index → t1.cols = t2.cols → t1 = t2
| ⟨_, _⟩, ⟨_, _⟩, rfl, rfl => rfl

theorem mkParsedColumn_name (n : String) (cells : List String) :
    (mkParsedColumn n cells).name = n := rfl

theorem mkParsedColumn_values_length (n : String) (cells : List String) :
    (mkParsedColumn n cells).values.length = cells.length := by
  simp [mkParsedColumn]

theorem getCol?_mem {t : Table} {n : String} {c : Column}
    (h : getCol? t n = some c) : c ∈ t.cols :=
  List.mem_of_find?_eq_some h

theorem getCol?_name {t : Table} {n : String} {c : Column}
    (h : getCol? t n = some c) : c.name = n := by
  simpa using List.find?_some h

theorem getCol?_isSome_iff {t : Table} {n : String} :
    (getCol? t n).isSome ↔ n ∈ columns t := by
  rw [getCol?, List.find?_isSome]
  constructor
  · rintro ⟨c, hc, hp⟩
    have hcn : c.name = n := by simpa using hp
    rw [columns]
    exact hcn ▸ List.mem_map_of_mem _ hc
  · intro hn
    rw [columns, List.mem_map] at hn
    obtain ⟨c, hc, hcn⟩ := hn
    exact ⟨c, hc, by simp [hcn]⟩

theorem select_ok_parts {t t' : Table} {ns : List String}
    (h : select t ns = .ok t') :
    t'.index = t.index ∧ t'.cols = ns.filterMap (getCol? t) ∧
      ∀ n ∈ ns, (getCol? t n).isSome := by
  unfold select at h
  split at h
  · exact absurd h (by simp)
  next hf =>
    cases h
    refine ⟨rfl, rfl, fun n hn => ?_⟩
    have hne := List.find?_eq_none.mp hf n hn
    cases hg : getCol? t n with
    | none => rw [hg] at hne; simp at hne
    | some c => simp

theorem select_eq_ok {t : Table} {ns : List String}
    (h : ∀ n ∈ ns, (getCol? t n).isSome) :
    select t ns = .ok ⟨t.index, ns.filterMap (getCol? t)⟩ := by
  unfold select
  have hf : ns.find? (fun n => (getCol? t n).isNone) = none := by
    rw [List.find?_eq_none]
    intro n hn
    simp only [Option.isNone_iff_eq_none]
    exact Option.isSome_iff_ne_none.mp (h n hn)
  rw [hf]

theorem length_filterMap_of_isSome {α β : Type} (f : α → Option β) :
    ∀ ns : List α, (∀ n ∈ ns, (f n).isSome) →
      (ns.filterMap f).length = ns.length
| [], _ => rfl
| n :: ns, h => by
  cases hf : f n with
  | none =>
    have := h n (List.mem_cons_self n ns)
    rw [hf] at this; simp at this
  | some b =>
    simp only [List.filterMap_cons, hf, List.length_cons]
    rw [length_filterMap_of_isSome f ns
      (fun m hm => h m (List.mem_cons_of_mem _ hm))]

theorem parseTable_index (names : List String) (rows : List (List String)) :
    (parseTable names rows).index = List.range rows.length := rfl

theorem parseTable_cols_length (names : List String)
    (rows : List (List String)) :
    (parseTable names rows).cols.length = names.length := by
  simp [parseTable, List.enum_length]

theorem parseTable_columns (names : List String) (rows : List (List String)) :
    columns (parseTable names rows) = names := by
  simp only [columns, parseTable, List.map_map]
  have h : (Column.name ∘ fun p : Nat × String =>
      mkParsedColumn p.2 (rows.map (fun r => r.getD p.1 ""))) = Prod.snd := by
    funext p; rfl
  rw [h, List.enum_map_snd]

theorem parseTable_inv (names : List String) (rows : List (List String)) :
    tableInv (parseTable names rows) := by
  intro c hc
  simp only [parseTable, List.mem_map] at hc
  obtain ⟨p, _, rfl⟩ := hc
  simp [mkParsedColumn, parseTable, List.length_range]

theorem head_inv {t : Table} (h : tableInv t) (n : Nat) :
    tableInv (head t n) := by
  intro c hc
  simp only [head, List.mem_map] at hc
  obtain ⟨c0, hc0, rfl⟩ := hc
  simp [head, List.length_take, h c0 hc0]

theorem tail_inv {t : Table} (h : tableInv t) (n : Nat) :
    tableInv (tail t n) := by
  intro c hc
  simp only [tail, List.mem_map] at hc
  obtain ⟨c0, hc0, rfl⟩ := hc
  simp [tail, List.length_drop, h c0 hc0]

theorem select_inv {t t' : Table} {ns : List String} (hinv : tableInv t)
    (h : select t ns = .ok t') : tableInv t' := by
  obtain ⟨hidx, hcols, _⟩ := select_ok_parts h
  intro c hc
  rw [hcols] at hc
  rw [hidx]
  obtain ⟨n, _, hn⟩ := List.mem_filterMap.mp hc
  exact hinv c (getCol?_mem hn)

theorem from_mapping_inv {m : List (String × List Value)} {t : Table}
    (h : from_mapping m = .ok t) : tableInv t := by
  unfold from_mapping at h
  split at h
  · split at h
    · cases h
      intro c hc
      simp [empty_table] at hc
    next n0 vs0 rest =>
      split at h
      next hall =>
        cases h
        intro c hc
        simp only [List.mem_map] at hc
        obtain ⟨p, hp, rfl⟩ := hc
        simp only [series, List.length_map, List.length_range]
        rcases List.mem_cons.mp hp with h | h
        · rw [h]
        · simpa using List.all_eq_true.mp hall p h
      · exact absurd h (by simp)
  · exact absurd h (by simp)

theorem parseLines_inv {lines : List String} {d : Char} {k : Nat}
    {sel : Option (List String)} {t : Table}
    (h : parseLines lines d k sel = .ok t) : tableInv t := by
  unfold parseLines at h
  split at h
  · exact absurd h (by simp)
  · split at h
    · split at h
      · exact absurd h (by simp)
      · split at h
        · cases h
          exact parseTable_inv _ _
        · exact select_inv (parseTable_inv _ _) h
    · exact absurd h (by simp)

theorem parse_inv {lines : List String} {d : Char} {k : Nat}
    {sel : Option (List String)} {t : Table}
    (h : parse lines d k sel = .ok t) : tableInv t :=
  parseLines_inv h

theorem numericValues_filter_isMissing (vs : List Value) :
    numericValues (vs.filter (fun v => !v.isMissing)) = numericValues vs := by
  induction vs with
  | nil => rfl
  | cons v vs ih =>
    have ih' : List.filterMap Value.toRat?
        (vs.filter (fun v => !v.isMissing)) =
        List.filterMap Value.toRat? vs := ih
    cases v with
    | int n =>
      simpa [numericValues, List.filter_cons, Value.isMissing,
        Value.toRat?] using ih'
    | float q =>
      simpa [numericValues, List.filter_cons, Value.isMissing,
        Value.toRat?] using ih'
    | text s =>
      simpa [numericValues, List.filter_cons, Value.isMissing,
        Value.toRat?] using ih'
    | missing =>
      simpa [numericValues, List.filter_cons, Value.isMissing,
        Value.toRat?] using ih'

theorem find_name_filterMap (t : Table) (ns : List String) (c : String)
    (hall : ∀ n ∈ ns, (getCol? t n).isSome) (hc : c ∈ ns) :
    (ns.filterMap (getCol? t)).find? (fun col => col.name == c) =
      getCol? t c := by
  induction ns with
  | nil => exact absurd hc (List.not_mem_nil c)
  | cons n ns ih =>
    obtain ⟨cn, hcn⟩ := Option.isSome_iff_exists.mp
      (hall n (List.mem_cons_self n ns))
    have hname : cn.name = n := getCol?_name hcn
    by_cases hnc : n = c
    · subst hnc
      simp only [List.filterMap_cons, hcn, List.find?_cons, hname,
        beq_self_eq_true]
    · have hc' : c ∈ ns := by
        rcases List.mem_cons.mp hc with h | h
        · exact absurd h.symm hnc
        · exact h
      have hfalse : (cn.name == c) = false := by simp [hname, hnc]
      simp only [List.filterMap_cons, hcn, List.find?_cons, hfalse]
      exact ih (fun m hm => hall m (List.mem_cons_of_mem _ hm)) hc'

theorem parseTable_shape (names : List String) (rows : List (List String)) :
    shape (parseTable names rows) = (rows.length, names.length) := by
  simp [shape, parseTable, List.length_range, List.enum_length]

/-! ## The claims -/

/-- C3: for every table and every list of column names all present in the
table, the projection `select` succeeds and yields a table with the same
row count as the original. -/
theorem select_preserves_len (t : Table) (ns : List String)
    (h : ∀ n ∈ ns, n ∈ columns t) :
    ∃ t', select t ns = .ok t' ∧ len t' = len t := by
  have hsome : ∀ n ∈ ns, (getCol? t n).isSome :=
    fun n hn => getCol?_isSome_iff.mpr (h n hn)
  exact ⟨_, select_eq_ok hsome, rfl⟩

/-- Witness for C3: the projection of `sampleTable` onto `["a"]` keeps its
three rows. -/
theorem select_preserves_len_witness :
    (∀ n ∈ ["a"], n ∈ columns sampleTable) ∧
    (∃ t', select sampleTable ["a"] = .ok t' ∧ len t' = len sampleTable) :=
  ⟨by decide, select_preserves_len sampleTable ["a"] (by decide)⟩

/-- C4: the reductions `mean`, `min`, `max`, `std` ignore missing values
(dropping missing values does not change their result), and on a column
with zero non-missing values each returns the missing-value result `none`
rather than failing. -/
theorem reductions_skip_missing (vs : List Value) :
    (mean (vs.filter (fun v => !v.isMissing)) = mean vs ∧
     min (vs.filter (fun v => !v.isMissing)) = min vs ∧
     max (vs.filter (fun v => !v.isMissing)) = max vs ∧
     std (vs.filter (fun v => !v.isMissing)) = std vs) ∧
    (count vs = 0 →
      mean vs = none ∧ min vs = none ∧ max vs = none ∧ std vs = none) := by
  have hnum := numericValues_filter_isMissing vs
  constructor
  · exact ⟨by simp [mean, hnum], by simp [min, hnum], by simp [max, hnum],
      by simp [std, sampleVar, hnum]⟩
  · intro h0
    have hz : numericValues vs = [] := List.length_eq_zero.mp h0
    exact ⟨by simp [mean, hz], by simp [min, hz], by simp [max, hz],
      by simp [std, sampleVar, hz]⟩

/-- Witness for C4: a column holding only a text cell and a missing cell
has zero non-missing numeric values, and each reduction returns `none`. -/
theorem reductions_skip_missing_witness :
    count [Value.text "x", Value.missing] = 0 ∧
    mean [Value.text "x", Value.missing] = none ∧
    min [Value.text "x", Value.missing] = none ∧
    max [Value.text "x", Value.missing] = none ∧
    std [Value.text "x", Value.missing] = none :=
  ⟨rfl,
   ((reductions_skip_missing [Value.text "x", Value.missing]).2 rfl).1,
   ((reductions_skip_missing [Value.text "x", Value.missing]).2 rfl).2.1,
   ((reductions_skip_missing [Value.text "x", Value.missing]).2 rfl).2.2.1,
   ((reductions_skip_missing [Value.text "x", Value.missing]).2 rfl).2.2.2⟩

/-- C6: `from_mapping` on named sequences of unequal lengths, such as
`{"a": [1,2], "b": [1,2,3]}`, fails with `LengthMismatch` and produces no
table. -/
theorem from_mapping_length_mismatch :
    from_mapping [("a", [Value.int 1, Value.int 2]),
                  ("b", [Value.int 1, Value.int 2, Value.int 3])] =
      .error .lengthMismatch := by decide

/-- C8: the sequence `[4, 5, 6, 7.0]` is inferred floating-point (its one
non-integer literal demotes it; the all-integer sequence stays integer),
its values are all upcast to floats, and its mean is exactly `5.5`. -/
theorem series_float_mean :
    seriesDtype [Value.int 4, Value.int 5, Value.int 6, Value.float 7] =
      Dtype.floating ∧
    series [Value.int 4, Value.int 5, Value.int 6, Value.float 7] =
      [Value.float 4, Value.float 5, Value.float 6, Value.float 7] ∧
    mean (series [Value.int 4, Value.int 5, Value.int 6, Value.float 7]) =
      some (11 / 2) ∧
    seriesDtype [Value.int 4, Value.int 5, Value.int 6, Value.int 7] =
      Dtype.integer := by
  refine ⟨by decide, by decide, ?_, by decide⟩
  have hs : series [Value.int 4, Value.int 5, Value.int 6, Value.float 7] =
      [Value.float 4, Value.float 5, Value.float 6, Value.float 7] := by
    decide
  rw [hs]
  have hnv : numericValues [Value.float 4, Value.float 5, Value.float 6,
      Value.float 7] = [4, 5, 6, 7] := by decide
  simp only [mean, hnv]
  norm_num

/-- C9: for every table, `len` equals the first component of `shape` — the
two row-count views agree. -/
theorem len_eq_shape_fst (t : Table) : len t = (shape t).1 := rfl

/-- C10: column selection commutes with projection — selecting a single
column `c` from a successful projection onto names `ns` containing `c`
yields the same column as selecting `c` directly from the original
table. -/
theorem select_one_commutes (t : Table) (ns : List String) (c : String)
    (t' : Table) (hsel : select t ns = .ok t') (hc : c ∈ ns) :
    select_one t' c = select_one t c := by
  obtain ⟨_, hcols, hall⟩ := select_ok_parts hsel
  have hg : getCol? t' c = getCol? t c := by
    unfold getCol?
    rw [hcols]
    exact find_name_filterMap t ns c hall hc
  unfold select_one
  rw [hg]

/-- C2: on a four-column weather table whose `YEARMODA` column is integer
typed and whose `TEMP`, `MAX`, `MIN` columns are floating-point typed,
`describe` excluding the integer type omits `YEARMODA` and reports the
eight statistics — count, mean, std, min, 25th/50th/75th percentile, max —
for exactly `TEMP`, `MAX` and `MIN`; moreover dropping the non-numeric
columns of any table never changes `describe`, whatever the excluded
types. -/
theorem describe_excludes :
    (∀ (idx : List Nat) (v1 v2 v3 v4 : List Value),
      describe ⟨idx,
        [⟨"YEARMODA", .integer, v1⟩, ⟨"TEMP", .floating, v2⟩,
         ⟨"MAX", .floating, v3⟩, ⟨"MIN", .floating, v4⟩]⟩ [.integer] =
      [("TEMP",
        [some ((count v2 : ℚ) : ℝ), (mean v2).map (fun q => (q : ℝ)),
         std v2, (min v2).map (fun q => (q : ℝ)),
         (percentile (1/4) v2).map (fun q => (q : ℝ)),
         (percentile (1/2) v2).map (fun q => (q : ℝ)),
         (percentile (3/4) v2).map (fun q => (q : ℝ)),
         (max v2).map (fun q => (q : ℝ))]),
       ("MAX",
        [some ((count v3 : ℚ) : ℝ), (mean v3).map (fun q => (q : ℝ)),
         std v3, (min v3).map (fun q => (q : ℝ)),
         (percentile (1/4) v3).map (fun q => (q : ℝ)),
         (percentile (1/2) v3).map (fun q => (q : ℝ)),
         (percentile (3/4) v3).map (fun q => (q : ℝ)),
         (max v3).map (fun q => (q : ℝ))]),
       ("MIN",
        [some ((count v4 : ℚ) : ℝ), (mean v4).map (fun q => (q : ℝ)),
         std v4, (min v4).map (fun q => (q : ℝ)),
         (percentile (1/4) v4).map (fun q => (q : ℝ)),
         (percentile (1/2) v4).map (fun q => (q : ℝ)),
         (percentile (3/4) v4).map (fun q => (q : ℝ)),
         (max v4).map (fun q => (q : ℝ))])]) ∧
    (∀ (t : Table) (ex : List Dtype),
      describe ⟨t.index, t.cols.filter (fun c => c.dtype.isNumeric)⟩ ex =
        describe t ex) := by
  constructor
  · intro idx v1 v2 v3 v4
    rfl
  · intro t ex
    simp only [describe, List.filter_filter]
    congr 1
    apply List.filter_congr
    intro c _
    cases hb : c.dtype.isNumeric <;> simp [hb]

/-- C5: every table-producing operation preserves the invariant that all
columns share one length, the table's row count: `parse`, `select`,
`head`, `tail` and `from_mapping` yield invariant tables (from invariant
inputs where applicable), `empty_table` is invariant, and every column
reported by `describe` has the same length, the eight statistics. -/
theorem table_invariant_preserved :
    (∀ (lines : List String) (d : Char) (k : Nat)
        (sel : Option (List String)) (t : Table),
        parse lines d k sel = .ok t → tableInv t) ∧
    (∀ (t : Table) (ns : List String) (t' : Table),
        tableInv t → select t ns = .ok t' → tableInv t') ∧
    (∀ (t : Table) (n : Nat), tableInv t → tableInv (head t n)) ∧
    (∀ (t : Table) (n : Nat), tableInv t → tableInv (tail t n)) ∧
    (∀ (m : List (String × List Value)) (t : Table),
        from_mapping m = .ok t → tableInv t) ∧
    tableInv empty_table ∧
    (∀ (t : Table) (ex : List Dtype) (e : String × List (Option ℝ)),
        e ∈ describe t ex → e.2.length = 8) :=
  ⟨fun _ _ _ _ _ h => parse_inv h,
   fun _ _ _ hinv h => select_inv hinv h,
   fun _ n hinv => head_inv hinv n,
   fun _ n hinv => tail_inv hinv n,
   fun _ _ h => from_mapping_inv h,
   fun c hc => absurd hc (List.not_mem_nil c),
   fun t ex e he => by
     simp only [describe, List.mem_map] at he
     obtain ⟨c, _, rfl⟩ := he
     rfl⟩

/-- Witness for C5: the invariant checked on concrete results of `parse`,
`select`, `head`, `tail`, `from_mapping`, `empty_table` and a concrete
`describe` entry. -/
theorem table_invariant_preserved_witness :
    parse ["# meta", "a,b", "1,2"] ',' 1 none =
      .ok ⟨[0], [⟨"a", .integer, [.int 1]⟩,
                 ⟨"b", .integer, [.int 2]⟩]⟩ ∧
    tableInv (⟨[0], [⟨"a", .integer, [.int 1]⟩,
                     ⟨"b", .integer, [.int 2]⟩]⟩ : Table) ∧
    tableInv sampleTable ∧
    tableInv (head sampleTable 2) ∧
    tableInv (tail sampleTable 2) ∧
    tableInv empty_table ∧
    from_mapping [("a", [Value.float 1, Value.missing])] =
      .ok ⟨[0, 1], [⟨"a", .floating, [.float 1, .missing]⟩]⟩ ∧
    tableInv (⟨[0, 1], [⟨"a", .floating, [.float 1, .missing]⟩]⟩ : Table) ∧
    select sampleTable ["b"] = .ok sampleTableB ∧
    tableInv sampleTableB ∧
    ("a", colStats [Value.int 1, Value.int 2, Value.int 3]) ∈
      describe sampleTable [] ∧
    ("a", colStats [Value.int 1, Value.int 2, Value.int 3]).2.length = 8 := by
  have hdesc : describe sampleTable [] =
      [("a", colStats [Value.int 1, Value.int 2, Value.int 3]),
       ("b", colStats [Value.float 1, Value.missing, Value.float 3])] := rfl
  have hmem : ("a", colStats [Value.int 1, Value.int 2, Value.int 3]) ∈
      describe sampleTable [] := by
    rw [hdesc]; exact List.mem_cons_self _ _
  have hparse : parse ["# meta", "a,b", "1,2"] ',' 1 none =
      .ok ⟨[0], [⟨"a", .integer, [.int 1]⟩,
                 ⟨"b", .integer, [.int 2]⟩]⟩ := by decide
  have hfm : from_mapping [("a", [Value.float 1, Value.missing])] =
      .ok ⟨[0, 1], [⟨"a", .floating, [.float 1, .missing]⟩]⟩ := by decide
  have hsel : select sampleTable ["b"] = .ok sampleTableB := by decide
  exact ⟨hparse,
    table_invariant_preserved.1 _ ',' 1 none _ hparse,
    by decide,
    table_invariant_preserved.2.2.1 sampleTable 2 (by decide),
    table_invariant_preserved.2.2.2.1 sampleTable 2 (by decide),
    table_invariant_preserved.2.2.2.2.2.1,
    hfm,
    table_invariant_preserved.2.2.2.2.1 _ _ hfm,
    hsel,
    table_invariant_preserved.2.1 sampleTable ["b"] sampleTableB
      (by decide) hsel,
    hmem,
    table_invariant_preserved.2.2.2.2.2.2 sampleTable [] _ hmem⟩

/-- C7: under the invariant, `tail (head t k) k = head t k` whenever
`k ≤ len t`; `head`/`tail` take the first/last `n` row labels in current
row order; and when `n` reaches or exceeds the row count both return the
whole table without error. -/
theorem head_tail_boundary (t : Table) (k n : Nat) (hinv : tableInv t) :
    (head t n).index = t.index.take n ∧
    (tail t n).index = t.index.drop (t.index.length - n) ∧
    (k ≤ len t → tail (head t k) k = head t k) ∧
    (len t ≤ n → head t n = t ∧ tail t n = t) := by
  refine ⟨rfl, rfl, ?_, ?_⟩
  · intro hk
    have hk' : k ≤ t.index.length := hk
    apply Table.ext'
    · show (t.index.take k).drop ((t.index.take k).length - k) =
        t.index.take k
      rw [List.length_take, Nat.min_eq_left hk', Nat.sub_self, List.drop_zero]
    · show (t.cols.map _).map _ = t.cols.map _
      rw [List.map_map]
      apply List.map_congr_left
      intro c hc
      show (⟨c.name, c.dtype, (c.values.take k).drop
          ((c.values.take k).length - k)⟩ : Column) =
        ⟨c.name, c.dtype, c.values.take k⟩
      rw [List.length_take, hinv c hc, Nat.min_eq_left hk', Nat.sub_self,
        List.drop_zero]
  · intro hn
    have hn' : t.index.length ≤ n := hn
    constructor
    · apply Table.ext'
      · exact List.take_of_length_le hn
      · show t.cols.map _ = t.cols
        conv_rhs => rw [← List.map_id t.cols]
        apply List.map_congr_left
        intro c hc
        show (⟨c.name, c.dtype, c.values.take n⟩ : Column) = c
        rw [List.take_of_length_le (by rw [hinv c hc]; exact hn')]
    · apply Table.ext'
      · show t.index.drop (t.index.length - n) = t.index
        rw [Nat.sub_eq_zero_of_le hn', List.drop_zero]
      · show t.cols.map _ = t.cols
        conv_rhs => rw [← List.map_id t.cols]
        apply List.map_congr_left
        intro c hc
        show (⟨c.name, c.dtype,
            c.values.drop (c.values.length - n)⟩ : Column) = c
        rw [hinv c hc, Nat.sub_eq_zero_of_le hn', List.drop_zero]

/-- Witness for C7 on `sampleTable` with `k = 2` and `n = 5`. -/
theorem head_tail_boundary_witness :
    tableInv sampleTable ∧ 2 ≤ len sampleTable ∧ len sampleTable ≤ 5 ∧
    tail (head sampleTable 2) 2 = head sampleTable 2 ∧
    head sampleTable 5 = sampleTable ∧ tail sampleTable 5 = sampleTable :=
  ⟨by decide, by decide, by decide,
   (head_tail_boundary sampleTable 2 5 (by decide)).2.2.1 (by decide),
   ((head_tail_boundary sampleTable 2 5 (by decide)).2.2.2 (by decide)).1,
   ((head_tail_boundary sampleTable 2 5 (by decide)).2.2.2 (by decide)).2⟩

/-- Witness for C10: projecting `sampleTable` onto `["b"]` and then
selecting the column `b` agrees with selecting `b` directly. -/
theorem select_one_commutes_witness :
    select sampleTable ["b"] = .ok sampleTableB ∧ "b" ∈ ["b"] ∧
    select_one sampleTableB "b" = select_one sampleTable "b" :=
  ⟨by decide, by decide,
   select_one_commutes sampleTable ["b"] "b" sampleTableB (by decide)
     (by decide)⟩

/-- C1: parsing a weather file made of 8 metadata lines, a header line
with fields `YEARMODA,TEMP,MAX,MIN` and 30 data rows, skipping 8 leading
rows, succeeds with shape `(30, 4)`; parsing it with selected columns
`["YEARMODA", "TEMP"]` succeeds with shape `(30, 2)`. -/
theorem parse_weather_shape (meta rows : List String)
    (hm : meta.length = 8) (hr : rows.length = 30)
    (hf : ∀ r ∈ rows, (splitCells ',' r).length = 4) :
    (∃ t, parse (meta ++ "YEARMODA,TEMP,MAX,MIN" :: rows) ',' 8 none =
        .ok t ∧ shape t = (30, 4)) ∧
    (∃ t, parse (meta ++ "YEARMODA,TEMP,MAX,MIN" :: rows) ',' 8
        (some ["YEARMODA", "TEMP"]) = .ok t ∧ shape t = (30, 2)) := by
  have hdrop : (meta ++ "YEARMODA,TEMP,MAX,MIN" :: rows).drop 8 =
      "YEARMODA,TEMP,MAX,MIN" :: rows := by
    rw [← hm]; exact List.drop_left meta _
  have hnames : splitCells ',' "YEARMODA,TEMP,MAX,MIN" =
      ["YEARMODA", "TEMP", "MAX", "MIN"] := rfl
  have hnodup : (splitCells ',' "YEARMODA,TEMP,MAX,MIN").Nodup := by decide
  have hfind : rows.findIdx? (fun r => (splitCells ',' r).length !=
      (splitCells ',' "YEARMODA,TEMP,MAX,MIN").length) = none := by
    rw [List.findIdx?_eq_none_iff]
    intro r hrr
    simp [hnames, hf r hrr]
  constructor
  · refine ⟨parseTable (splitCells ',' "YEARMODA,TEMP,MAX,MIN")
      (rows.map (splitCells ',')), ?_, ?_⟩
    · unfold parse
      rw [hdrop]
      simp only [parseLines]
      rw [if_pos hnodup, hfind]
    · rw [parseTable_shape, List.length_map, hr, hnames]
      rfl
  · have hsome : ∀ n ∈ ["YEARMODA", "TEMP"],
        (getCol? (parseTable (splitCells ',' "YEARMODA,TEMP,MAX,MIN")
          (rows.map (splitCells ','))) n).isSome := by
      intro n hn
      rw [getCol?_isSome_iff, parseTable_columns, hnames]
      simp only [List.mem_cons, List.not_mem_nil, or_false] at hn
      rcases hn with rfl | rfl
      · decide
      · decide
    refine ⟨⟨(parseTable (splitCells ',' "YEARMODA,TEMP,MAX,MIN")
        (rows.map (splitCells ','))).index,
      List.filterMap (getCol? (parseTable
        (splitCells ',' "YEARMODA,TEMP,MAX,MIN")
        (rows.map (splitCells ',')))) ["YEARMODA", "TEMP"]⟩, ?_, ?_⟩
    · unfold parse
      rw [hdrop]
      simp only [parseLines]
      rw [if_pos hnodup, hfind]
      exact select_eq_ok hsome
    · unfold shape
      rw [parseTable_index, List.length_range, List.length_map, hr,
        length_filterMap_of_isSome _ _ hsome]
      rfl

/-- Witness for C1 on a concrete file: 8 metadata lines, the weather
header, and 30 four-field data rows. -/
theorem parse_weather_shape_witness :
    (List.replicate 8 "# metadata").length = 8 ∧
    (List.replicate 30 "20160601,14.8,18.4,11.2").length = 30 ∧
    (∀ r ∈ List.replicate 30 "20160601,14.8,18.4,11.2",
      (splitCells ',' r).length = 4) ∧
    ((∃ t, parse (List.replicate 8 "# metadata" ++
        "YEARMODA,TEMP,MAX,MIN" :: List.replicate 30 "20160601,14.8,18.4,11.2")
        ',' 8 none = .ok t ∧ shape t = (30, 4)) ∧
     (∃ t, parse (List.replicate 8 "# metadata" ++
        "YEARMODA,TEMP,MAX,MIN" :: List.replicate 30 "20160601,14.8,18.4,11.2")
        ',' 8 (some ["YEARMODA", "TEMP"]) = .ok t ∧ shape t = (30, 2))) :=
  ⟨by decide, by decide,
   fun r hr => by rw [(List.mem_replicate.mp hr).2]; rfl,
   parse_weather_shape (List.replicate 8 "# metadata")
     (List.replicate 30 "20160601,14.8,18.4,11.2") (by decide) (by decide)
     (fun r hr => by rw [(List.mem_replicate.mp hr).2]; rfl)⟩

end Tab
